import Mathlib

/-!
Shallow embedding of the injection--recovery core of `spotlightcurve`
(`src/spotlightcurve/sim/inject.py` and `src/spotlightcurve/model/gp.py`).

Modelling conventions:
* IEEE-754 doubles are modelled as real numbers; a value that may be
  non-finite (`inf`/`nan`) where the source tests `np.isfinite` is modelled
  as `Option ℝ`, with `none` standing for any non-finite value.
* One-dimensional numpy arrays are modelled as `Fin n → ℝ` (shape checks
  become type-level equalities of `n`); `time` is validated non-empty via
  `n = 0` checks, mirroring `_validate_time_array`.
* Python exceptions are modelled with `Except SLError`; the constructors
  distinguish `ValueError`, `ZeroDivisionError` (raised by `np.average`
  when the weights of a group sum to zero) and `RuntimeError`.
* `numpy.random.Generator` is modelled as an explicit stream of
  standard-normal draws supplied by the caller; determinism of the
  generator is then purity of the embedded function.
-/

set_option maxHeartbeats 1000000

noncomputable section

open scoped Classical

/-- Error kinds raised by the embedded operations: `validation` models
Python `ValueError`, `zeroDivision` models the `ZeroDivisionError` raised
by `np.average` on zero total weight, `internal` models `RuntimeError`. -/
inductive SLError where
  | validation : String → SLError
  | zeroDivision : SLError
  | internal : String → SLError
deriving DecidableEq

/-- Configuration for the quasi-periodic covariance model
(`QPNoiseConfig` in `inject.py`). -/
structure QPNoiseConfig where
  amplitude : ℝ
  timescale : ℝ
  period : ℝ
  gamma : ℝ
  jitter : ℝ

/-- Box-shaped transit configuration (`TransitInjection` in `inject.py`). -/
structure TransitInjection where
  depth : ℝ
  duration : ℝ
  period : ℝ
  t0 : ℝ

/-- Result of one injection--recovery trial
(`InjectionRecoveryResult` in `inject.py`). -/
structure InjectionRecoveryResult (n : ℕ) where
  injection : TransitInjection
  recovered_depth : ℝ
  snr : ℝ
  detected : Bool
  flux : Fin n → ℝ
  noise : Fin n → ℝ

/-- Real-number model of numpy floating `x % p`:
`np.mod(x, p) = x - p * floor(x / p)`. -/
def rmod (x p : ℝ) : ℝ := x - p * ⌊x / p⌋

/-- Phase of a time stamp relative to the injected ephemeris, as computed in
both `inject_box_transit` and `recover_box_depth`:
`((t - t0 + 0.5 * period) % period) - 0.5 * period`. -/
def phaseOf (inj : TransitInjection) (t : ℝ) : ℝ :=
  rmod (t - inj.t0 + 0.5 * inj.period) inj.period - 0.5 * inj.period

/-- In-transit test of `inject.py`: `|phase| <= 0.5 * duration`. -/
def inTransit (inj : TransitInjection) (t : ℝ) : Prop :=
  |phaseOf inj t| ≤ 0.5 * inj.duration

/-- Indices of in-transit samples. -/
def inGroup {n : ℕ} (time : Fin n → ℝ) (inj : TransitInjection) : Finset (Fin n) :=
  Finset.univ.filter (fun i => inTransit inj (time i))

/-- Indices of out-of-transit samples (`oot = ~in_transit`). -/
def ootGroup {n : ℕ} (time : Fin n → ℝ) (inj : TransitInjection) : Finset (Fin n) :=
  Finset.univ.filter (fun i => ¬ inTransit inj (time i))

/-- The pure flux vector built by `inject_box_transit` after validation:
ones, with in-transit entries lowered by `depth`. -/
def boxFlux {n : ℕ} (time : Fin n → ℝ) (inj : TransitInjection) : Fin n → ℝ :=
  fun i => if inTransit inj (time i) then 1 - inj.depth else 1

/-- Embedding of `inject_box_transit` with its validation: time must be
non-empty (the 1-D finite checks are carried by the types of the embedding),
depth strictly positive, duration and period strictly positive. -/
def inject_box_transit {n : ℕ} (time : Fin n → ℝ) (inj : TransitInjection) :
    Except SLError (Fin n → ℝ) :=
  if n = 0 then
    .error (.validation "time must be a one-dimensional array with at least one sample")
  else if inj.depth ≤ 0 then .error (.validation "Transit depth must be positive")
  else if inj.duration ≤ 0 ∨ inj.period ≤ 0 then
    .error (.validation "Transit duration and period must be positive")
  else .ok (boxFlux time inj)

/-- Per-sample recovery weight of `recover_box_depth`:
`np.where(np.isfinite(flux_err) & (flux_err > 0), 1.0 / flux_err**2, 0.0)`;
`none` models a non-finite error value. -/
def weight : Option ℝ → ℝ
  | some e => if 0 < e then 1 / e ^ 2 else 0
  | none => 0

/-- Population standard deviation of a vector, modelling `np.nanstd` on a
vector of finite values. -/
def nanstd {n : ℕ} (f : Fin n → ℝ) : ℝ :=
  Real.sqrt ((∑ i, (f i - (∑ j, f j) / n) ^ 2) / n)

/-- Embedding of `recover_box_depth`.  `fluxErr = none` models passing
`flux_err=None`, which defaults every per-point error to `np.nanstd(flux)`;
an entry `none` inside the error vector models a non-finite float.
`np.average` raises `ZeroDivisionError` when a group's weights sum to zero;
the out-of-transit mean is evaluated first, as in the source. -/
def recover_box_depth {n : ℕ} (time : Fin n → ℝ) (flux : Fin n → ℝ)
    (fluxErr : Option (Fin n → Option ℝ)) (inj : TransitInjection) :
    Except SLError (ℝ × ℝ) :=
  if n = 0 then
    .error (.validation "time must be a one-dimensional array with at least one sample")
  else
    let err : Fin n → Option ℝ := fluxErr.getD (fun _ => some (nanstd flux))
    let w : Fin n → ℝ := fun i => weight (err i)
    if ∀ i, w i = 0 then
      .error (.validation "flux_err must contain at least one finite, positive entry")
    else if inGroup time inj = ∅ then
      .error (.validation "No samples fall within the transit window for recovery")
    else if ootGroup time inj = ∅ then
      .error (.validation "No out-of-transit samples available for baseline estimation")
    else if ∑ i ∈ ootGroup time inj, w i = 0 then .error .zeroDivision
    else if ∑ i ∈ inGroup time inj, w i = 0 then .error .zeroDivision
    else
      let meanOot := (∑ i ∈ ootGroup time inj, w i * flux i) / ∑ i ∈ ootGroup time inj, w i
      let meanIn := (∑ i ∈ inGroup time inj, w i * flux i) / ∑ i ∈ inGroup time inj, w i
      let d := meanOot - meanIn
      .ok (d, d / Real.sqrt (1 / (∑ i ∈ inGroup time inj, w i)
        + 1 / (∑ i ∈ ootGroup time inj, w i)))

/-- Effective diagonal term added to the covariance in `draw_qp_noise`:
`jitter ** 2` when `jitter > 0`, else the fixed floor `1e-12`. -/
def jitterEff (cfg : QPNoiseConfig) : ℝ :=
  if 0 < cfg.jitter then cfg.jitter ^ 2 else 1e-12

/-- Quasi-periodic covariance matrix built by `draw_qp_noise`, including the
silent clamping `max(·, 1e-6)` of `timescale`, `period` and `gamma`, and the
diagonal jitter term. -/
def qpCov {n : ℕ} (time : Fin n → ℝ) (cfg : QPNoiseConfig) :
    Matrix (Fin n) (Fin n) ℝ :=
  Matrix.of fun i j =>
    let dt := time i - time j
    cfg.amplitude ^ 2 * Real.exp (-0.5 * (dt / max cfg.timescale 1e-6) ^ 2)
        * Real.exp (-(Real.sin (Real.pi * dt / max cfg.period 1e-6)) ^ 2
          / (2.0 * max cfg.gamma 1e-6 ^ 2))
      + (if i = j then jitterEff cfg else 0)

/-- Cholesky-style lower-triangular factor of a matrix, by block recursion.
Modelled from the spec: `numpy.random.Generator.multivariate_normal` is
external library code; the spec (section 4.1) describes the sampling as
factoring the covariance and applying the factor to a standard-normal
vector.  On the diagonal covariances the claims exercise, this factor
agrees with numpy (entrywise square root of the diagonal). -/
def chol : {n : ℕ} → Matrix (Fin n) (Fin n) ℝ → Matrix (Fin n) (Fin n) ℝ
  | 0, _ => 0
  | (_ + 1), A =>
    let s := Real.sqrt (A 0 0)
    let c := fun i => A i.succ 0 / s
    let L := chol (Matrix.of fun i j => A i.succ j.succ - c i * c j)
    Matrix.of fun i =>
      Fin.cases (fun j => Fin.cases s (fun _ => 0) j)
        (fun i' j => Fin.cases (c i') (fun j' => L i' j') j) i

/-- Embedding of `draw_qp_noise`: validate the time array, build the
quasi-periodic covariance and apply its factor to the standard-normal
draw `z` supplied by the explicit generator.  In exact real arithmetic the
covariance (positive-semidefinite kernel plus strictly positive diagonal)
is positive-definite, so the `LinAlgError` retry branch of the source is
unreachable and is not modelled. -/
def draw_qp_noise {n : ℕ} (time : Fin n → ℝ) (cfg : QPNoiseConfig)
    (z : Fin n → ℝ) : Except SLError (Fin n → ℝ) :=
  if n = 0 then
    .error (.validation "time must be a one-dimensional array with at least one sample")
  else .ok ((chol (qpCov time cfg)).mulVec z)

/-- Per-trial error vector used by `run_injection_recovery`: the supplied
`flux_err`, or a constant `np.nanstd(flux)` when the caller passed `None`. -/
def resolveErr {n : ℕ} (fluxErr : Option (Fin n → Option ℝ)) (flux : Fin n → ℝ) :
    Fin n → Option ℝ :=
  fluxErr.getD (fun _ => some (nanstd flux))

/-- Loop body of `run_injection_recovery`: trial `k` consumes the `k`-th
block of standard-normal draws from the shared generator stream `zs`. -/
def runAux {n : ℕ} (time : Fin n → ℝ) (fluxErr : Option (Fin n → Option ℝ))
    (cfg : QPNoiseConfig) (thr : ℝ) (zs : ℕ → Fin n → ℝ) :
    List TransitInjection → ℕ → Except SLError (List (InjectionRecoveryResult n))
  | [], _ => .ok []
  | inj :: rest, k =>
    match draw_qp_noise time cfg (zs k) with
    | .error e => .error e
    | .ok noise =>
      match inject_box_transit time inj with
      | .error e => .error e
      | .ok signal =>
        let flux := fun i => signal i + noise i
        let err := resolveErr fluxErr flux
        match recover_box_depth time flux (some err) inj with
        | .error e => .error e
        | .ok p =>
          match runAux time fluxErr cfg thr zs rest (k + 1) with
          | .error e => .error e
          | .ok rs =>
            .ok ({ injection := inj, recovered_depth := p.1, snr := p.2,
                   detected := if thr ≤ p.2 then true else false,
                   flux := flux, noise := noise } :: rs)

/-- Embedding of `run_injection_recovery`: validate the time array, then run
the trials sequentially, threading the explicit generator stream. -/
def run_injection_recovery {n : ℕ} (time : Fin n → ℝ)
    (fluxErr : Option (Fin n → Option ℝ)) (injections : List TransitInjection)
    (qp_config : QPNoiseConfig) (detection_threshold : ℝ)
    (zs : ℕ → Fin n → ℝ) : Except SLError (List (InjectionRecoveryResult n)) :=
  if n = 0 then
    .error (.validation "time must be a one-dimensional array with at least one sample")
  else runAux time fluxErr qp_config detection_threshold zs injections 0

/-- Container for Lomb-Scargle rotation-period estimates
(`RotationPeriodResult` in `gp.py`). -/
structure RotationPeriodResult where
  period : ℝ
  frequency : List ℝ
  power : List ℝ
  false_alarm_probability : ℝ

/-- The finite `(time, flux)` pairs kept by `estimate_rotation_period`
(`finite_mask = np.isfinite(time) & np.isfinite(flux)`); `none` entries
model non-finite floats. -/
def finitePairs (time flux : List (Option ℝ)) : List (ℝ × ℝ) :=
  (time.zip flux).filterMap fun p =>
    match p with
    | (some t, some f) => some (t, f)
    | _ => none

/-- Maximum of a list of reals (used for `np.nanmax` on a non-empty list). -/
def listMax : List ℝ → ℝ
  | [] => 0
  | x :: xs => xs.foldl max x

/-- Minimum of a list of reals (used for `np.nanmin` on a non-empty list). -/
def listMin : List ℝ → ℝ
  | [] => 0
  | x :: xs => xs.foldl min x

/-- Median of a list of reals, modelling `np.nanmedian` on finite values:
sort, take the middle element, or the mean of the two middle elements. -/
def listMedian (l : List ℝ) : ℝ :=
  let s := l.mergeSort (fun a b => a ≤ b)
  if l.length % 2 = 1 then s.getD (l.length / 2) 0
  else (s.getD (l.length / 2 - 1) 0 + s.getD (l.length / 2) 0) / 2

/-- First index of the maximal element, modelling `np.argmax`. -/
def argmaxAux : List ℝ → ℕ → ℕ → ℝ → ℕ
  | [], _, best, _ => best
  | x :: xs, i, best, bv =>
    if bv < x then argmaxAux xs (i + 1) i x else argmaxAux xs (i + 1) best bv

/-- Index of the first maximal element of a list (`np.argmax`). -/
def argmaxIdx : List ℝ → ℕ
  | [] => 0
  | x :: xs => argmaxAux xs 1 0 x

/-- Resolved maximum search period of `estimate_rotation_period`: the
caller-supplied value, or the observational baseline when positive, else
`min_period * 10`. -/
def resolvedMaxPeriod (min_period : ℝ) (max_period : Option ℝ) (ts : List ℝ) : ℝ :=
  max_period.getD (if 0 < listMax ts - listMin ts then listMax ts - listMin ts
    else min_period * 10)

/-- Embedding of `estimate_rotation_period` from `gp.py`.  Modelled from the
spec where the source leans on external libraries: astropy's
`LombScargle.autopower` and `false_alarm_probability` are not part of this
repository, so they enter as oracle parameters `ls` (mapping the kept times,
the median-centered flux, the frequency bounds and the oversample factor to
a `(frequency, power)` pair) and `fap` (mapping the same data and the peak
power to a false-alarm probability).  All validation and control flow of the
source is embedded directly. -/
def estimate_rotation_period
    (ls : List ℝ → List ℝ → ℝ → ℝ → ℝ → List ℝ × List ℝ)
    (fap : List ℝ → List ℝ → ℝ → ℝ)
    (time flux : List (Option ℝ)) (min_period : ℝ) (max_period : Option ℝ)
    (oversample_factor : ℝ) : Except SLError RotationPeriodResult :=
  let pairs := finitePairs time flux
  if pairs = [] then
    .error (.validation "No finite samples provided for period estimation.")
  else
    let ts := pairs.map Prod.fst
    let fs := pairs.map Prod.snd
    let maxP := resolvedMaxPeriod min_period max_period ts
    if maxP ≤ min_period then
      .error (.validation "max_period must be greater than min_period.")
    else
      let centered := fs.map fun y => y - listMedian fs
      let fp := ls ts centered (1 / maxP) (1 / min_period) oversample_factor
      if fp.2 = [] then
        .error (.internal "Lomb-Scargle failed to compute a valid periodogram.")
      else
        .ok { period := 1 / fp.1.getD (argmaxIdx fp.2) 0
              , frequency := fp.1
              , power := fp.2
              , false_alarm_probability := fap ts centered (listMax fp.2) }

/-! ### Helper lemmas -/

/-- The effective diagonal jitter is strictly positive: either `jitter ^ 2`
with `jitter > 0`, or the fixed floor `1e-12`. -/
lemma jitterEff_pos (cfg : QPNoiseConfig) : 0 < jitterEff cfg := by
  unfold jitterEff
  split
  · positivity
  · norm_num

/-- The Cholesky-style factor of a scalar matrix `c • 1` is
`Real.sqrt c • 1`. -/
lemma chol_smul_one (n : ℕ) (c : ℝ) :
    chol (c • (1 : Matrix (Fin n) (Fin n) ℝ)) = Real.sqrt c • 1 := by
  induction n with
  | zero =>
    funext i
    exact i.elim0
  | succ m ih =>
    have harg :
        (Matrix.of fun a b : Fin m =>
          (c • (1 : Matrix (Fin (m + 1)) (Fin (m + 1)) ℝ)) a.succ b.succ -
            (c • (1 : Matrix (Fin (m + 1)) (Fin (m + 1)) ℝ)) a.succ 0 /
              Real.sqrt ((c • (1 : Matrix (Fin (m + 1)) (Fin (m + 1)) ℝ)) 0 0) *
            ((c • (1 : Matrix (Fin (m + 1)) (Fin (m + 1)) ℝ)) b.succ 0 /
              Real.sqrt ((c • (1 : Matrix (Fin (m + 1)) (Fin (m + 1)) ℝ)) 0 0))) =
        c • (1 : Matrix (Fin m) (Fin m) ℝ) := by
      funext a b
      have ha : ((1 : Matrix (Fin (m + 1)) (Fin (m + 1)) ℝ)) a.succ 0 = 0 :=
        Matrix.one_apply_ne (Fin.succ_ne_zero a)
      have hb : ((1 : Matrix (Fin (m + 1)) (Fin (m + 1)) ℝ)) b.succ 0 = 0 :=
        Matrix.one_apply_ne (Fin.succ_ne_zero b)
      have hab : ((1 : Matrix (Fin (m + 1)) (Fin (m + 1)) ℝ)) a.succ b.succ =
          ((1 : Matrix (Fin m) (Fin m) ℝ)) a b := by
        by_cases h : a = b
        · subst h; simp [Matrix.one_apply]
        · rw [Matrix.one_apply_ne h, Matrix.one_apply_ne]
          simpa [Fin.succ_inj] using h
      simp [Matrix.smul_apply, ha, hb, hab]
    show
      (Matrix.of fun i =>
        Fin.cases
          (fun j => Fin.cases (Real.sqrt ((c • (1 : Matrix (Fin (m + 1)) (Fin (m + 1)) ℝ)) 0 0))
            (fun _ => 0) j)
          (fun i' j =>
            Fin.cases
              ((c • (1 : Matrix (Fin (m + 1)) (Fin (m + 1)) ℝ)) i'.succ 0 /
                Real.sqrt ((c • (1 : Matrix (Fin (m + 1)) (Fin (m + 1)) ℝ)) 0 0))
              (fun j' => chol
                (Matrix.of fun a b : Fin m =>
                  (c • (1 : Matrix (Fin (m + 1)) (Fin (m + 1)) ℝ)) a.succ b.succ -
                    (c • (1 : Matrix (Fin (m + 1)) (Fin (m + 1)) ℝ)) a.succ 0 /
                      Real.sqrt ((c • (1 : Matrix (Fin (m + 1)) (Fin (m + 1)) ℝ)) 0 0) *
                    ((c • (1 : Matrix (Fin (m + 1)) (Fin (m + 1)) ℝ)) b.succ 0 /
                      Real.sqrt ((c • (1 : Matrix (Fin (m + 1)) (Fin (m + 1)) ℝ)) 0 0)))
                i' j') j) i) =
        Real.sqrt c • (1 : Matrix (Fin (m + 1)) (Fin (m + 1)) ℝ)
    rw [harg, ih]
    funext i j
    induction i using Fin.cases with
    | zero =>
      induction j using Fin.cases with
      | zero => simp [Matrix.smul_apply, Matrix.one_apply]
      | succ j' =>
        simp [Matrix.smul_apply, Matrix.one_apply_ne (Fin.succ_ne_zero j').symm]
    | succ i' =>
      induction j using Fin.cases with
      | zero =>
        simp [Matrix.smul_apply, Matrix.one_apply_ne (Fin.succ_ne_zero i')]
      | succ j' =>
        have hab : ((1 : Matrix (Fin (m + 1)) (Fin (m + 1)) ℝ)) i'.succ j'.succ =
            ((1 : Matrix (Fin m) (Fin m) ℝ)) i' j' := by
          by_cases h : i' = j'
          · subst h; simp [Matrix.one_apply]
          · rw [Matrix.one_apply_ne, Matrix.one_apply_ne h]
            simpa [Fin.succ_inj] using h
        simp [Matrix.smul_apply, hab]

/-- Evaluation of `recover_box_depth` under uniform strictly positive
errors: both weighted means collapse to plain group means, and the
propagated variance is `e^2` divided by each group size. -/
lemma recover_box_depth_uniform {n : ℕ} (time flux : Fin n → ℝ) (e : ℝ)
    (he : 0 < e) (inj : TransitInjection) (hin : (inGroup time inj).Nonempty)
    (hoot : (ootGroup time inj).Nonempty) :
    recover_box_depth time flux (some fun _ => some e) inj =
      .ok ((∑ i ∈ ootGroup time inj, flux i) / ((ootGroup time inj).card : ℝ)
            - (∑ i ∈ inGroup time inj, flux i) / ((inGroup time inj).card : ℝ),
        ((∑ i ∈ ootGroup time inj, flux i) / ((ootGroup time inj).card : ℝ)
            - (∑ i ∈ inGroup time inj, flux i) / ((inGroup time inj).card : ℝ))
          / Real.sqrt (e ^ 2 / ((inGroup time inj).card : ℝ)
            + e ^ 2 / ((ootGroup time inj).card : ℝ))) := by
  obtain ⟨i0, hi0⟩ := hin
  obtain ⟨j0, hj0⟩ := hoot
  have hn : n ≠ 0 := (Fin.pos i0).ne'
  have hw : weight (some e) = 1 / e ^ 2 := by simp [weight, he]
  have he2 : (1 : ℝ) / e ^ 2 ≠ 0 := one_div_ne_zero (pow_ne_zero 2 he.ne')
  have hcIn : (0 : ℝ) < ((inGroup time inj).card : ℝ) := by
    exact_mod_cast Finset.card_pos.mpr ⟨i0, hi0⟩
  have hcOot : (0 : ℝ) < ((ootGroup time inj).card : ℝ) := by
    exact_mod_cast Finset.card_pos.mpr ⟨j0, hj0⟩
  have hsumIn : ∑ _i ∈ inGroup time inj, (1 : ℝ) / e ^ 2 =
      ((inGroup time inj).card : ℝ) * (1 / e ^ 2) := by
    rw [Finset.sum_const, nsmul_eq_mul]
  have hsumOot : ∑ _i ∈ ootGroup time inj, (1 : ℝ) / e ^ 2 =
      ((ootGroup time inj).card : ℝ) * (1 / e ^ 2) := by
    rw [Finset.sum_const, nsmul_eq_mul]
  have hDiv : ∀ S c : ℝ, (1 / e ^ 2 * S) / (c * (1 / e ^ 2)) = S / c := by
    intro S c
    rw [mul_comm c (1 / e ^ 2), mul_div_mul_left _ _ he2]
  have hInv : ∀ c : ℝ, 1 / (c * (1 / e ^ 2)) = e ^ 2 / c := by
    intro c
    rw [mul_one_div, one_div_div]
  simp only [recover_box_depth, if_neg hn, Option.getD_some, hw]
  rw [if_neg (fun h : ∀ _i : Fin n, (1 : ℝ) / e ^ 2 = 0 => he2 (h i0)),
    if_neg (Finset.nonempty_iff_ne_empty.mp ⟨i0, hi0⟩),
    if_neg (Finset.nonempty_iff_ne_empty.mp ⟨j0, hj0⟩)]
  rw [hsumIn, hsumOot,
    if_neg (mul_ne_zero hcOot.ne' he2), if_neg (mul_ne_zero hcIn.ne' he2)]
  rw [← Finset.mul_sum, ← Finset.mul_sum, hDiv, hDiv, hInv, hInv]

/-- On the clean box signal with uniform positive errors,
`recover_box_depth` returns exactly the injected depth, and the
signal-to-noise ratio is the depth divided by a positive scale that does
not depend on the depth. -/
lemma recover_box_depth_box {n : ℕ} (time : Fin n → ℝ) (e : ℝ) (he : 0 < e)
    (inj : TransitInjection) (hin : (inGroup time inj).Nonempty)
    (hoot : (ootGroup time inj).Nonempty) :
    recover_box_depth time (boxFlux time inj) (some fun _ => some e) inj =
      .ok (inj.depth, inj.depth / Real.sqrt (e ^ 2 / ((inGroup time inj).card : ℝ)
        + e ^ 2 / ((ootGroup time inj).card : ℝ))) := by
  have hcIn : (0 : ℝ) < ((inGroup time inj).card : ℝ) := by
    exact_mod_cast Finset.card_pos.mpr hin
  have hcOot : (0 : ℝ) < ((ootGroup time inj).card : ℝ) := by
    exact_mod_cast Finset.card_pos.mpr hoot
  have hSin : ∑ i ∈ inGroup time inj, boxFlux time inj i =
      ((inGroup time inj).card : ℝ) * (1 - inj.depth) := by
    rw [Finset.sum_congr rfl (fun i hi => ?_), Finset.sum_const, nsmul_eq_mul]
    have := (Finset.mem_filter.mp hi).2
    simp [boxFlux, this]
  have hSoot : ∑ i ∈ ootGroup time inj, boxFlux time inj i =
      ((ootGroup time inj).card : ℝ) * 1 := by
    rw [Finset.sum_congr rfl (fun i hi => ?_), Finset.sum_const, nsmul_eq_mul]
    have := (Finset.mem_filter.mp hi).2
    simp [boxFlux, this]
  rw [recover_box_depth_uniform time (boxFlux time inj) e he inj hin hoot,
    hSin, hSoot, mul_comm, mul_div_assoc, div_self hcOot.ne', mul_one,
    mul_comm, mul_div_assoc, div_self hcIn.ne', mul_one]
  ring_nf

/-- Boolean comparison used for the `detected` field. -/
lemma ite_true_false_iff (thr x : ℝ) :
    ((if thr ≤ x then true else false) = true) ↔ thr ≤ x := by
  by_cases hx : thr ≤ x <;> simp [hx]

/-- Structural invariant of the runner loop: a successful batch carries one
result per injection in input order, every `detected` flag agrees with the
threshold comparison on the stored `snr`, and every stored flux is the clean
box signal of the stored injection plus the stored noise realization. -/
lemma runAux_spec {n : ℕ} (time : Fin n → ℝ) (fe : Option (Fin n → Option ℝ))
    (cfg : QPNoiseConfig) (thr : ℝ) (zs : ℕ → Fin n → ℝ) :
    ∀ (injs : List TransitInjection) (k : ℕ)
      (rs : List (InjectionRecoveryResult n)),
      runAux time fe cfg thr zs injs k = .ok rs →
      rs.map (fun r => r.injection) = injs ∧
        ∀ r ∈ rs, (r.detected = true ↔ thr ≤ r.snr) ∧
          ∃ signal, inject_box_transit time r.injection = .ok signal ∧
            r.flux = fun i => signal i + r.noise i := by
  intro injs
  induction injs with
  | nil =>
    intro k rs h
    simp only [runAux] at h
    cases h
    simp
  | cons inj rest ih =>
    intro k rs h
    simp only [runAux] at h
    split at h
    · exact Except.noConfusion h
    · rename_i noise hd
      split at h
      · exact Except.noConfusion h
      · rename_i signal hs
        split at h
        · exact Except.noConfusion h
        · rename_i p hp
          split at h
          · exact Except.noConfusion h
          · rename_i rs' ht
            cases h
            obtain ⟨hmap, hall⟩ := ih (k + 1) rs' ht
            refine ⟨by simpa using hmap, ?_⟩
            intro r hr'
            rcases List.mem_cons.mp hr' with hhead | htail
            · subst hhead
              exact ⟨ite_true_false_iff thr p.2, signal, hs, rfl⟩
            · exact hall r htail

/-- The runner loop succeeds whenever the grid is non-empty, the supplied
errors are a uniform strictly positive constant, and every injection has
positive parameters with both phase groups inhabited. -/
lemma runAux_ok {n : ℕ} (time : Fin n → ℝ) (e : ℝ) (he : 0 < e)
    (cfg : QPNoiseConfig) (thr : ℝ) (zs : ℕ → Fin n → ℝ) (hn : n ≠ 0) :
    ∀ (injs : List TransitInjection) (k : ℕ),
      (∀ inj ∈ injs, 0 < inj.depth ∧ 0 < inj.duration ∧ 0 < inj.period ∧
        (inGroup time inj).Nonempty ∧ (ootGroup time inj).Nonempty) →
      ∃ rs, runAux time (some fun _ => some e) cfg thr zs injs k = .ok rs := by
  intro injs
  induction injs with
  | nil => exact fun k _ => ⟨[], rfl⟩
  | cons inj rest ih =>
    intro k hall
    obtain ⟨hd, hdu, hp, hin, hoot⟩ := hall inj (List.mem_cons_self inj rest)
    have hdraw : draw_qp_noise time cfg (zs k) =
        .ok ((chol (qpCov time cfg)).mulVec (zs k)) := by
      simp [draw_qp_noise, hn]
    have hsig : inject_box_transit time inj = .ok (boxFlux time inj) := by
      rw [inject_box_transit, if_neg hn, if_neg (not_le.mpr hd),
        if_neg (by push_neg; exact ⟨hdu, hp⟩)]
    obtain ⟨rs', hrs'⟩ := ih (k + 1) (fun j hj => hall j (List.mem_cons_of_mem inj hj))
    exact ⟨_, by
      simp only [runAux, hdraw, hsig, resolveErr, Option.getD_some]
      rw [recover_box_depth_uniform time _ e he inj hin hoot, hrs']⟩

/-- With `amplitude = 0`, the covariance degenerates to the pure diagonal
jitter floor. -/
lemma qpCov_amp_zero {n : ℕ} (time : Fin n → ℝ) (cfg : QPNoiseConfig)
    (h : cfg.amplitude = 0) : qpCov time cfg = jitterEff cfg • 1 := by
  funext i j
  simp [qpCov, h, Matrix.smul_apply, Matrix.one_apply, mul_ite]

/-- Evaluation of `draw_qp_noise` at `amplitude = 0`: the returned vector is
the raw standard-normal draw scaled by the square root of the jitter floor. -/
lemma draw_qp_noise_amp_zero {n : ℕ} (time : Fin n → ℝ) (cfg : QPNoiseConfig)
    (z : Fin n → ℝ) (hn : n ≠ 0) (h : cfg.amplitude = 0) :
    draw_qp_noise time cfg z = .ok (Real.sqrt (jitterEff cfg) • z) := by
  unfold draw_qp_noise
  rw [if_neg hn, qpCov_amp_zero time cfg h, chol_smul_one n (jitterEff cfg),
    Matrix.smul_mulVec_assoc, Matrix.one_mulVec]

/-- Validation-passing evaluation of `inject_box_transit`. -/
lemma inject_box_transit_ok {n : ℕ} (time : Fin n → ℝ) (inj : TransitInjection)
    (hn : n ≠ 0) (hd : 0 < inj.depth) (hdu : 0 < inj.duration)
    (hp : 0 < inj.period) :
    inject_box_transit time inj = .ok (boxFlux time inj) := by
  rw [inject_box_transit, if_neg hn, if_neg (not_le.mpr hd),
    if_neg (by push_neg; exact ⟨hdu, hp⟩)]

/-- On the demo grid `[0, 1/4]` with ephemeris `t0 = 0`, `period = 1`,
`duration = 1/10`, the first sample is in transit. -/
lemma inTransit_demo0 (d : ℝ) :
    inTransit ⟨d, 1/10, 1, 0⟩ ((![0, 1/4] : Fin 2 → ℝ) 0) := by
  show |rmod ((![0, 1/4] : Fin 2 → ℝ) 0 - 0 + 0.5 * 1) 1 - 0.5 * 1| ≤ 0.5 * (1/10)
  norm_num [rmod, Matrix.cons_val_zero]

/-- On the demo grid, the second sample is out of transit. -/
lemma not_inTransit_demo1 (d : ℝ) :
    ¬ inTransit ⟨d, 1/10, 1, 0⟩ ((![0, 1/4] : Fin 2 → ℝ) 1) := by
  show ¬ |rmod ((![0, 1/4] : Fin 2 → ℝ) 1 - 0 + 0.5 * 1) 1 - 0.5 * 1| ≤ 0.5 * (1/10)
  have habs : |(1/4 : ℝ)| = 1/4 := abs_of_nonneg (by norm_num)
  norm_num [rmod, Matrix.cons_val_one, Matrix.head_cons, habs]

/-- The in-transit group of the demo grid is inhabited. -/
lemma inGroup_demo_nonempty (d : ℝ) :
    (inGroup (![0, 1/4] : Fin 2 → ℝ) ⟨d, 1/10, 1, 0⟩).Nonempty :=
  ⟨0, Finset.mem_filter.mpr ⟨Finset.mem_univ _, inTransit_demo0 d⟩⟩

/-- The out-of-transit group of the demo grid is inhabited. -/
lemma ootGroup_demo_nonempty (d : ℝ) :
    (ootGroup (![0, 1/4] : Fin 2 → ℝ) ⟨d, 1/10, 1, 0⟩).Nonempty :=
  ⟨1, Finset.mem_filter.mpr ⟨Finset.mem_univ _, not_inTransit_demo1 d⟩⟩

/-- A concrete successful batch on the demo grid: one injection, uniform
errors, zero-amplitude noise configuration, generator stream fixed at 0. -/
lemma run_demo_ok :
    ∃ rs, run_injection_recovery (![0, 1/4] : Fin 2 → ℝ)
      (some fun _ => some (1/1000)) [⟨1/100, 1/10, 1, 0⟩] ⟨0, 1, 1, 1, 0⟩ 0
      (fun _ _ => 0) = .ok rs := by
  rw [run_injection_recovery, if_neg (by norm_num : (2 : ℕ) ≠ 0)]
  refine runAux_ok _ (1/1000) (by norm_num) _ _ _ (by norm_num) _ 0 ?_
  intro inj hj
  rcases List.mem_singleton.mp hj with rfl
  exact ⟨by norm_num, by norm_num, by norm_num,
    inGroup_demo_nonempty _, ootGroup_demo_nonempty _⟩

/-! ### Claim theorems -/

/-- C1: on every non-empty grid, for every injection with positive depth,
duration and period and uniform strictly positive errors, running
`recover_box_depth` on the exact `inject_box_transit` output (zero noise)
returns `recovered_depth` exactly equal to the injected depth whenever both
an in-transit and an out-of-transit sample exist; and for the same grid and
errors the returned snr is strictly increasing in the injected depth. -/
theorem c1_noiseless_recovery_exact_and_snr_mono {n : ℕ} (time : Fin n → ℝ)
    (inj : TransitInjection) (d₂ e : ℝ) (hd : 0 < inj.depth)
    (hd₂ : inj.depth < d₂) (hdu : 0 < inj.duration) (hp : 0 < inj.period)
    (he : 0 < e) (hin : (inGroup time inj).Nonempty)
    (hoot : (ootGroup time inj).Nonempty) :
    ∃ s₁ s₂,
      inject_box_transit time inj = .ok (boxFlux time inj) ∧
      inject_box_transit time { inj with depth := d₂ } =
        .ok (boxFlux time { inj with depth := d₂ }) ∧
      recover_box_depth time (boxFlux time inj) (some fun _ => some e) inj =
        .ok (inj.depth, s₁) ∧
      recover_box_depth time (boxFlux time { inj with depth := d₂ })
        (some fun _ => some e) { inj with depth := d₂ } = .ok (d₂, s₂) ∧
      s₁ < s₂ := by
  have hn : n ≠ 0 := (Fin.pos hin.choose).ne'
  have hin' : (inGroup time { inj with depth := d₂ }).Nonempty := hin
  have hoot' : (ootGroup time { inj with depth := d₂ }).Nonempty := hoot
  refine ⟨_, _, inject_box_transit_ok time inj hn hd hdu hp,
    inject_box_transit_ok time _ hn (hd.trans hd₂) hdu hp,
    recover_box_depth_box time e he inj hin hoot,
    recover_box_depth_box time e he _ hin' hoot', ?_⟩
  have h1 : (0 : ℝ) < ((inGroup time inj).card : ℝ) := by
    exact_mod_cast Finset.card_pos.mpr hin
  have h2 : (0 : ℝ) < ((ootGroup time inj).card : ℝ) := by
    exact_mod_cast Finset.card_pos.mpr hoot
  have hX : (0 : ℝ) < e ^ 2 / ((inGroup time inj).card : ℝ)
      + e ^ 2 / ((ootGroup time inj).card : ℝ) :=
    add_pos (div_pos (pow_pos he 2) h1) (div_pos (pow_pos he 2) h2)
  exact div_lt_div_of_pos_right hd₂ (Real.sqrt_pos.mpr hX)

/-- Witness for C1 on the demo grid `[0, 1/4]`, depths `1/100 < 1/50`,
uniform error `1/1000`. -/
theorem c1_noiseless_recovery_exact_and_snr_mono_witness :
    ∃ s₁ s₂,
      inject_box_transit (![0, 1/4] : Fin 2 → ℝ) ⟨1/100, 1/10, 1, 0⟩ =
        .ok (boxFlux (![0, 1/4] : Fin 2 → ℝ) ⟨1/100, 1/10, 1, 0⟩) ∧
      inject_box_transit (![0, 1/4] : Fin 2 → ℝ) ⟨1/50, 1/10, 1, 0⟩ =
        .ok (boxFlux (![0, 1/4] : Fin 2 → ℝ) ⟨1/50, 1/10, 1, 0⟩) ∧
      recover_box_depth (![0, 1/4] : Fin 2 → ℝ)
        (boxFlux (![0, 1/4] : Fin 2 → ℝ) ⟨1/100, 1/10, 1, 0⟩)
        (some fun _ => some (1/1000)) ⟨1/100, 1/10, 1, 0⟩ =
        .ok (1/100, s₁) ∧
      recover_box_depth (![0, 1/4] : Fin 2 → ℝ)
        (boxFlux (![0, 1/4] : Fin 2 → ℝ) ⟨1/50, 1/10, 1, 0⟩)
        (some fun _ => some (1/1000)) ⟨1/50, 1/10, 1, 0⟩ = .ok (1/50, s₂) ∧
      s₁ < s₂ :=
  c1_noiseless_recovery_exact_and_snr_mono (![0, 1/4] : Fin 2 → ℝ)
    ⟨1/100, 1/10, 1, 0⟩ (1/50) (1/1000) (by norm_num) (by norm_num)
    (by norm_num) (by norm_num) (by norm_num)
    (inGroup_demo_nonempty _) (ootGroup_demo_nonempty _)

/-- C5: for every valid time array and injection with positive depth,
duration and period, `inject_box_transit` succeeds, every flux value is
either `1` or `1 - depth`, and whenever at least one sample is in transit
the minimum flux value is exactly `1 - depth`. -/
theorem c5_box_flux_values_and_min {n : ℕ} (time : Fin n → ℝ)
    (inj : TransitInjection) (hn : n ≠ 0) (hd : 0 < inj.depth)
    (hdu : 0 < inj.duration) (hp : 0 < inj.period) :
    inject_box_transit time inj = .ok (boxFlux time inj) ∧
    (∀ i, boxFlux time inj i = 1 ∨ boxFlux time inj i = 1 - inj.depth) ∧
    ((∃ i, inTransit inj (time i)) →
      (∃ i, boxFlux time inj i = 1 - inj.depth) ∧
        ∀ i, 1 - inj.depth ≤ boxFlux time inj i) := by
  refine ⟨inject_box_transit_ok time inj hn hd hdu hp, ?_, ?_⟩
  · intro i
    by_cases h : inTransit inj (time i)
    · exact Or.inr (by simp [boxFlux, h])
    · exact Or.inl (by simp [boxFlux, h])
  · rintro ⟨i, hi⟩
    refine ⟨⟨i, by simp [boxFlux, hi]⟩, ?_⟩
    intro j
    by_cases h : inTransit inj (time j)
    · simp [boxFlux, h]
    · simp only [boxFlux, if_neg h]
      linarith

/-- Witness for C5 on the demo grid. -/
theorem c5_box_flux_values_and_min_witness :
    inject_box_transit (![0, 1/4] : Fin 2 → ℝ) ⟨1/100, 1/10, 1, 0⟩ =
      .ok (boxFlux (![0, 1/4] : Fin 2 → ℝ) ⟨1/100, 1/10, 1, 0⟩) ∧
    (∀ i, boxFlux (![0, 1/4] : Fin 2 → ℝ) ⟨1/100, 1/10, 1, 0⟩ i = 1 ∨
      boxFlux (![0, 1/4] : Fin 2 → ℝ) ⟨1/100, 1/10, 1, 0⟩ i = 1 - 1/100) ∧
    ((∃ i, inTransit ⟨1/100, 1/10, 1, 0⟩ ((![0, 1/4] : Fin 2 → ℝ) i)) →
      (∃ i, boxFlux (![0, 1/4] : Fin 2 → ℝ) ⟨1/100, 1/10, 1, 0⟩ i = 1 - 1/100) ∧
        ∀ i, 1 - 1/100 ≤ boxFlux (![0, 1/4] : Fin 2 → ℝ) ⟨1/100, 1/10, 1, 0⟩ i) :=
  c5_box_flux_values_and_min (![0, 1/4] : Fin 2 → ℝ) ⟨1/100, 1/10, 1, 0⟩
    (by norm_num) (by norm_num) (by norm_num) (by norm_num)

/-- C9: `inject_box_transit` fails with a validation error whenever
`depth ≤ 0`, `duration ≤ 0` or `period ≤ 0`; otherwise (on a non-empty
grid) it returns the deterministic closed-form box flux, with no
randomness involved. -/
theorem c9_inject_validation_and_determinism {n : ℕ} (time : Fin n → ℝ)
    (inj : TransitInjection) :
    ((inj.depth ≤ 0 ∨ inj.duration ≤ 0 ∨ inj.period ≤ 0) →
      ∃ m, inject_box_transit time inj = .error (.validation m)) ∧
    (n ≠ 0 → 0 < inj.depth → 0 < inj.duration → 0 < inj.period →
      inject_box_transit time inj = .ok (boxFlux time inj)) := by
  constructor
  · intro h
    unfold inject_box_transit
    by_cases hn : n = 0
    · exact ⟨_, by rw [if_pos hn]⟩
    · rw [if_neg hn]
      by_cases hdep : inj.depth ≤ 0
      · exact ⟨_, by rw [if_pos hdep]⟩
      · have hdp : inj.duration ≤ 0 ∨ inj.period ≤ 0 := by
          rcases h with h | h | h
          · exact absurd h hdep
          · exact Or.inl h
          · exact Or.inr h
        exact ⟨_, by rw [if_neg hdep, if_pos hdp]⟩
  · exact fun hn hd hdu hp => inject_box_transit_ok time inj hn hd hdu hp

/-- Witness for C9: `depth = 0` is rejected with a validation error, and a
valid configuration returns the closed-form flux. -/
theorem c9_inject_validation_and_determinism_witness :
    (∃ m, inject_box_transit (![0] : Fin 1 → ℝ) ⟨0, 1, 1, 0⟩ =
      .error (.validation m)) ∧
    inject_box_transit (![0] : Fin 1 → ℝ) ⟨1/100, 1/10, 1, 0⟩ =
      .ok (boxFlux (![0] : Fin 1 → ℝ) ⟨1/100, 1/10, 1, 0⟩) :=
  ⟨(c9_inject_validation_and_determinism (![0] : Fin 1 → ℝ) ⟨0, 1, 1, 0⟩).1
      (Or.inl (by norm_num)),
    (c9_inject_validation_and_determinism (![0] : Fin 1 → ℝ)
      ⟨1/100, 1/10, 1, 0⟩).2 one_ne_zero (by norm_num) (by norm_num)
      (by norm_num)⟩

/-- C3: `recover_box_depth` assigns each sample weight `1/err^2` when its
error is finite and positive and weight `0` otherwise, and it fails with an
error whenever the in-transit group or the out-of-transit group contains no
sample with positive weight. -/
theorem c3_weights_and_group_failure {n : ℕ} (time flux : Fin n → ℝ)
    (err : Fin n → Option ℝ) (inj : TransitInjection) :
    (∀ i, (0 < weight (err i) ↔ ∃ e, err i = some e ∧ 0 < e) ∧
      ∀ e, err i = some e → 0 < e → weight (err i) = 1 / e ^ 2) ∧
    (((∀ i, inTransit inj (time i) → weight (err i) = 0) ∨
        (∀ i, ¬ inTransit inj (time i) → weight (err i) = 0)) →
      ∃ er, recover_box_depth time flux (some err) inj = .error er) := by
  constructor
  · intro i
    rcases herr : err i with _ | e
    · constructor
      · simp [weight]
      · simp
    · constructor
      · constructor
        · intro hw
          refine ⟨e, rfl, ?_⟩
          by_contra hle
          simp [weight, hle] at hw
        · rintro ⟨e', he', hpos⟩
          obtain rfl : e = e' := Option.some.inj he'
          simp only [weight, if_pos hpos]
          positivity
      · intro e' he' hpos
        obtain rfl : e = e' := Option.some.inj he'
        simp [weight, hpos]
  · intro h
    by_cases hn : n = 0
    · exact ⟨_, by rw [recover_box_depth, if_pos hn]⟩
    · simp only [recover_box_depth, if_neg hn, Option.getD_some]
      split_ifs with h1 h2 h3 h4 h5
      · exact ⟨_, rfl⟩
      · exact ⟨_, rfl⟩
      · exact ⟨_, rfl⟩
      · exact ⟨_, rfl⟩
      · exact ⟨_, rfl⟩
      · exfalso
        rcases h with hh | hh
        · exact h5 (Finset.sum_eq_zero fun i hi =>
            hh i (Finset.mem_filter.mp hi).2)
        · exact h4 (Finset.sum_eq_zero fun i hi =>
            hh i (Finset.mem_filter.mp hi).2)

/-- Witness for C3: a non-finite error on the sole in-transit sample of the
demo grid makes the recovery fail. -/
theorem c3_weights_and_group_failure_witness :
    ∃ er, recover_box_depth (![0, 1/4] : Fin 2 → ℝ) (![1, 1])
      (some (![none, some (1/1000)])) ⟨1/100, 1/10, 1, 0⟩ = .error er := by
  refine (c3_weights_and_group_failure (![0, 1/4] : Fin 2 → ℝ) (![1, 1])
    (![none, some (1/1000)]) ⟨1/100, 1/10, 1, 0⟩).2 (Or.inl ?_)
  intro i hi
  fin_cases i
  · show weight ((![none, some (1/1000)] : Fin 2 → Option ℝ) 0) = 0
    simp [weight]
  · exact absurd hi (not_inTransit_demo1 _)

/-- C2, counterexample: with `amplitude = 0` (and `jitter = 0`, a valid
configuration), `draw_qp_noise` does not return the zero vector: the
covariance keeps the `1e-12` diagonal floor, so a unit normal draw comes
back scaled by `1e-6`, not zeroed. -/
theorem c2_amp_zero_counterexample :
    draw_qp_noise (![0] : Fin 1 → ℝ) ⟨0, 1, 1/2, 3/10, 0⟩ (![1]) ≠
      .ok (fun _ => 0) := by
  rw [draw_qp_noise_amp_zero _ _ _ one_ne_zero rfl]
  intro h
  have h0 := congrFun (Except.ok.inj h) 0
  have hj : jitterEff ⟨0, 1, 1/2, 3/10, 0⟩ = 1e-12 := by
    simp [jitterEff]
  rw [hj] at h0
  simp only [Pi.smul_apply, Matrix.cons_val_zero, smul_eq_mul, mul_one] at h0
  exact absurd h0 (Real.sqrt_ne_zero'.mpr (by norm_num))

/-- C2, amended: with `amplitude = 0` the returned vector is the raw
standard-normal draw scaled by the square root of the strictly positive
diagonal jitter floor (`jitter^2` if `jitter > 0`, else `1e-12`); it is the
zero vector exactly when the generator happened to draw all zeros, not in
general. -/
theorem c2_amp_zero_jitter_noise {n : ℕ} (time : Fin n → ℝ)
    (cfg : QPNoiseConfig) (z : Fin n → ℝ) (hn : n ≠ 0)
    (hamp : cfg.amplitude = 0) :
    draw_qp_noise time cfg z = .ok (Real.sqrt (jitterEff cfg) • z) ∧
    0 < jitterEff cfg ∧
    (Real.sqrt (jitterEff cfg) • z = 0 ↔ z = 0) := by
  refine ⟨draw_qp_noise_amp_zero time cfg z hn hamp, jitterEff_pos cfg, ?_⟩
  have hs : Real.sqrt (jitterEff cfg) ≠ 0 :=
    Real.sqrt_ne_zero'.mpr (jitterEff_pos cfg)
  constructor
  · intro h
    rcases smul_eq_zero.mp h with h | h
    · exact absurd h hs
    · exact h
  · intro h
    rw [h, smul_zero]

/-- Witness for the amended C2 at a concrete configuration. -/
theorem c2_amp_zero_jitter_noise_witness :
    draw_qp_noise (![0] : Fin 1 → ℝ) ⟨0, 1, 1, 1, 0⟩ (![1]) =
      .ok (Real.sqrt (jitterEff ⟨0, 1, 1, 1, 0⟩) • ![1]) ∧
    0 < jitterEff ⟨0, 1, 1, 1, 0⟩ ∧
    (Real.sqrt (jitterEff ⟨0, 1, 1, 1, 0⟩) • (![1] : Fin 1 → ℝ) = 0 ↔
      (![1] : Fin 1 → ℝ) = 0) :=
  c2_amp_zero_jitter_noise (![0] : Fin 1 → ℝ) ⟨0, 1, 1, 1, 0⟩ (![1])
    one_ne_zero rfl

/-- C4, counterexample: `draw_qp_noise` raises no error for non-positive
`timescale`, `period`, `gamma` (first call) or non-positive `amplitude`
(second call); both calls return normally. -/
theorem c4_no_config_validation_counterexample :
    draw_qp_noise (![0] : Fin 1 → ℝ) ⟨1, -1, -2, -3, 0⟩ (fun _ => 0) =
      .ok (fun _ => 0) ∧
    draw_qp_noise (![0] : Fin 1 → ℝ) ⟨-1, 1, 1, 1, 0⟩ (fun _ => 0) =
      .ok (fun _ => 0) := by
  constructor <;>
    · rw [draw_qp_noise, if_neg (Nat.succ_ne_zero 0),
        show (fun _ : Fin 1 => (0 : ℝ)) = 0 from rfl, Matrix.mulVec_zero]

/-- C4, amended: `draw_qp_noise` validates only the time array; it never
raises for a non-positive `amplitude`, `timescale`, `period` or `gamma`.
Instead, non-positive `timescale`, `period` and `gamma` are silently
clamped to `1e-6` inside the covariance (clamping an already-clamped
configuration changes nothing), and `amplitude` is used as supplied. -/
theorem c4_config_clamped_not_validated {n : ℕ} (time : Fin n → ℝ)
    (cfg : QPNoiseConfig) (z : Fin n → ℝ) (hn : n ≠ 0) :
    (∃ v, draw_qp_noise time cfg z = .ok v) ∧
    qpCov time cfg = qpCov time
      ⟨cfg.amplitude, max cfg.timescale 1e-6, max cfg.period 1e-6,
        max cfg.gamma 1e-6, cfg.jitter⟩ := by
  constructor
  · exact ⟨_, by rw [draw_qp_noise, if_neg hn]⟩
  · funext i j
    simp only [qpCov, jitterEff, Matrix.of_apply, max_assoc, max_self]

/-- Witness for the amended C4 at a concrete non-positive configuration. -/
theorem c4_config_clamped_not_validated_witness :
    (∃ v, draw_qp_noise (![0] : Fin 1 → ℝ) ⟨1, -1, -2, -3, 0⟩ (![1]) =
      .ok v) ∧
    qpCov (![0] : Fin 1 → ℝ) ⟨1, -1, -2, -3, 0⟩ =
      qpCov (![0] : Fin 1 → ℝ)
        ⟨1, max (-1) 1e-6, max (-2) 1e-6, max (-3) 1e-6, 0⟩ :=
  c4_config_clamped_not_validated (![0] : Fin 1 → ℝ) ⟨1, -1, -2, -3, 0⟩
    (![1]) one_ne_zero

/-- C6: with the generator modelled as the explicit stream of
standard-normal draws it supplies, two calls of `draw_qp_noise` on the same
time array and configuration with generators in identical states (equal
draw vectors) return identical outputs. -/
theorem c6_draw_qp_noise_reproducible {n : ℕ} (time : Fin n → ℝ)
    (cfg : QPNoiseConfig) (z₁ z₂ : Fin n → ℝ) (h : z₁ = z₂) :
    draw_qp_noise time cfg z₁ = draw_qp_noise time cfg z₂ := by
  rw [h]

/-- Witness for C6 at a concrete input. -/
theorem c6_draw_qp_noise_reproducible_witness :
    draw_qp_noise (![0] : Fin 1 → ℝ) ⟨1/100, 1, 1/2, 3/10, 1e-6⟩ (![1]) =
      draw_qp_noise (![0] : Fin 1 → ℝ) ⟨1/100, 1, 1/2, 3/10, 1e-6⟩ (![1]) :=
  c6_draw_qp_noise_reproducible (![0] : Fin 1 → ℝ) ⟨1/100, 1, 1/2, 3/10, 1e-6⟩
    (![1]) (![1]) rfl

/-- C7: a successful `run_injection_recovery` batch returns exactly one
result per input injection, in input order (the list of stored injections
is the input list), and every result's `detected` flag holds exactly when
its `snr` is at least the detection threshold. -/
theorem c7_runner_order_and_detected {n : ℕ} (time : Fin n → ℝ)
    (fe : Option (Fin n → Option ℝ)) (injs : List TransitInjection)
    (cfg : QPNoiseConfig) (thr : ℝ) (zs : ℕ → Fin n → ℝ)
    (rs : List (InjectionRecoveryResult n))
    (h : run_injection_recovery time fe injs cfg thr zs = .ok rs) :
    rs.map (fun r => r.injection) = injs ∧
      ∀ r ∈ rs, (r.detected = true ↔ thr ≤ r.snr) := by
  by_cases hn : n = 0
  · rw [run_injection_recovery, if_pos hn] at h
    exact Except.noConfusion h
  · rw [run_injection_recovery, if_neg hn] at h
    obtain ⟨hmap, hall⟩ := runAux_spec time fe cfg thr zs injs 0 rs h
    exact ⟨hmap, fun r hr => (hall r hr).1⟩

/-- Witness for C7: a concrete one-injection batch succeeds and carries the
input injection. -/
theorem c7_runner_order_and_detected_witness :
    ∃ rs, run_injection_recovery (![0, 1/4] : Fin 2 → ℝ)
      (some fun _ => some (1/1000)) [⟨1/100, 1/10, 1, 0⟩] ⟨0, 1, 1, 1, 0⟩ 0
      (fun _ _ => 0) = .ok rs ∧
      rs.map (fun r => r.injection) = [⟨1/100, 1/10, 1, 0⟩] := by
  obtain ⟨rs, h⟩ := run_demo_ok
  exact ⟨rs, h, (c7_runner_order_and_detected _ _ _ _ _ _ rs h).1⟩

/-- C10: every result of a successful `run_injection_recovery` batch is
internally consistent: the stored flux is exactly the clean box signal of
the stored injection plus the stored noise realization. -/
theorem c10_result_flux_consistency {n : ℕ} (time : Fin n → ℝ)
    (fe : Option (Fin n → Option ℝ)) (injs : List TransitInjection)
    (cfg : QPNoiseConfig) (thr : ℝ) (zs : ℕ → Fin n → ℝ)
    (rs : List (InjectionRecoveryResult n))
    (h : run_injection_recovery time fe injs cfg thr zs = .ok rs) :
    ∀ r ∈ rs, ∃ signal, inject_box_transit time r.injection = .ok signal ∧
      r.flux = fun i => signal i + r.noise i := by
  by_cases hn : n = 0
  · rw [run_injection_recovery, if_pos hn] at h
    exact Except.noConfusion h
  · rw [run_injection_recovery, if_neg hn] at h
    exact fun r hr =>
      ((runAux_spec time fe cfg thr zs injs 0 rs h).2 r hr).2

/-- Witness for C10 on the same concrete batch. -/
theorem c10_result_flux_consistency_witness :
    ∃ rs, run_injection_recovery (![0, 1/4] : Fin 2 → ℝ)
      (some fun _ => some (1/1000)) [⟨1/100, 1/10, 1, 0⟩] ⟨0, 1, 1, 1, 0⟩ 0
      (fun _ _ => 0) = .ok rs ∧
      ∀ r ∈ rs, ∃ signal,
        inject_box_transit (![0, 1/4] : Fin 2 → ℝ) r.injection = .ok signal ∧
          r.flux = fun i => signal i + r.noise i := by
  obtain ⟨rs, h⟩ := run_demo_ok
  exact ⟨rs, h, c10_result_flux_consistency _ _ _ _ _ _ rs h⟩

/-- C8: `estimate_rotation_period` fails with a validation error when no
finite sample pair remains, fails with a validation error when the resolved
maximum period does not exceed the minimum period, and fails with an
internal error when the periodogram search returns an empty power array. -/
theorem c8_rotation_period_failure_modes
    (ls : List ℝ → List ℝ → ℝ → ℝ → ℝ → List ℝ × List ℝ)
    (fap : List ℝ → List ℝ → ℝ → ℝ) (time flux : List (Option ℝ))
    (minp : ℝ) (maxp : Option ℝ) (osf : ℝ) :
    (finitePairs time flux = [] →
      estimate_rotation_period ls fap time flux minp maxp osf =
        .error (.validation "No finite samples provided for period estimation.")) ∧
    (finitePairs time flux ≠ [] →
      resolvedMaxPeriod minp maxp ((finitePairs time flux).map Prod.fst) ≤ minp →
      estimate_rotation_period ls fap time flux minp maxp osf =
        .error (.validation "max_period must be greater than min_period.")) ∧
    (finitePairs time flux ≠ [] →
      minp < resolvedMaxPeriod minp maxp ((finitePairs time flux).map Prod.fst) →
      (ls ((finitePairs time flux).map Prod.fst)
          (((finitePairs time flux).map Prod.snd).map fun y =>
            y - listMedian ((finitePairs time flux).map Prod.snd))
          (1 / resolvedMaxPeriod minp maxp ((finitePairs time flux).map Prod.fst))
          (1 / minp) osf).2 = [] →
      estimate_rotation_period ls fap time flux minp maxp osf =
        .error (.internal "Lomb-Scargle failed to compute a valid periodogram.")) := by
  refine ⟨fun h1 => ?_, fun h1 h2 => ?_, fun h1 h2 h3 => ?_⟩
  · simp only [estimate_rotation_period, if_pos h1]
  · simp only [estimate_rotation_period]
    rw [if_neg h1, if_pos h2]
  · simp only [estimate_rotation_period]
    rw [if_neg h1, if_neg (not_le.mpr h2), if_pos h3]

/-- Witness for C8: the three failure modes at concrete inputs (all
samples non-finite; maximum period below minimum; oracle returning an
empty periodogram). -/
theorem c8_rotation_period_failure_modes_witness :
    estimate_rotation_period (fun _ _ _ _ _ => ([], [])) (fun _ _ _ => 0)
      [none] [some 1] 1 none 5 =
      .error (.validation "No finite samples provided for period estimation.") ∧
    estimate_rotation_period (fun _ _ _ _ _ => ([], [])) (fun _ _ _ => 0)
      [some 0, some 1] [some 0, some 0] 1 (some (1/2)) 5 =
      .error (.validation "max_period must be greater than min_period.") ∧
    estimate_rotation_period (fun _ _ _ _ _ => ([], [])) (fun _ _ _ => 0)
      [some 0, some 1] [some 0, some 0] 1 (some 2) 5 =
      .error (.internal "Lomb-Scargle failed to compute a valid periodogram.") := by
  refine ⟨(c8_rotation_period_failure_modes _ _ _ _ _ _ _).1 (by
      simp [finitePairs]), ?_, ?_⟩
  · refine (c8_rotation_period_failure_modes _ _ _ _ _ _ _).2.1 ?_ ?_
    · simp [finitePairs]
    · norm_num [resolvedMaxPeriod]
  · refine (c8_rotation_period_failure_modes _ _ _ _ _ _ _).2.2 ?_ ?_ rfl
    · simp [finitePairs]
    · norm_num [resolvedMaxPeriod]

end
